import Mathlib

/-!
Shallow embedding of the Price Series Reconstruction & Statistics Engine of
the TescoPriceTracker browser extension, translated from
src/extension/content/content.js: the timestamp parser `parseDate`, the
aligner `processRealData`, the statistics calculator `calculateStats`, the
live price override of `injectPriceTracker`, and the staleness check that
runs when the asynchronous history fetch completes.

Machine numbers are modelled as rationals, calendar days as integer day
indices, and an Invalid Date as `none`.  JavaScript array sort is modelled
as a stable insertion sort whose comparator follows the SortCompare clause
of the language standard: a NaN comparator result counts as zero.
-/

namespace TescoPriceTracker

/-- A parsed JavaScript Date in the local timezone: the calendar day index
and the milliseconds past local midnight. -/
structure JSDate where
  day : Int
  msOfDay : Int
deriving DecidableEq

/-- Milliseconds in one day, the `oneDay` constant of `diffDays`. -/
def oneDay : Int := 24 * 60 * 60 * 1000

/-- Date.prototype.getTime for a valid date. -/
def JSDate.getTime (d : JSDate) : Int := d.day * oneDay + d.msOfDay

/-- A raw timestamp string as consumed by `parseDate`, classified by how the
host parses it: a falsy string, a string that yields a valid Date once
`str.split('.')[0]` has truncated any sub-second fraction (the count of
truncated fractional digits is recorded), or a string that still yields an
Invalid Date after truncation. -/
inductive RawTimestamp where
  | empty : RawTimestamp
  | valid : JSDate → Nat → RawTimestamp
  | invalid : RawTimestamp
deriving DecidableEq

/-- One row of the history payload: `{ timestamp, price_actual, clubcard_price }`. -/
structure RawRecord where
  timestamp : RawTimestamp
  price_actual : Option ℚ
  clubcard_price : Option ℚ
deriving DecidableEq

/-- The `parseDate` helper of content.js: a falsy string gives `new Date()`
(the current instant, with its time of day); otherwise the sub-second
fraction is truncated and the string parsed; a valid result has its time of
day zeroed by `setHours(0,0,0,0)`; an unparsable string stays an Invalid
Date, modelled as `none`. -/
def parseDate (now : JSDate) : RawTimestamp → Option JSDate
  | .empty => some now
  | .valid dt _ => some { day := dt.day, msOfDay := 0 }
  | .invalid => none

/-- An element of the `sorted` array built at the top of `processRealData`. -/
structure SortedItem where
  date : Option JSDate
  price : Option ℚ
  clubcardPrice : Option ℚ
deriving DecidableEq

/-- The mapping step of `processRealData`: parse the timestamp and keep the
two price fields. -/
def mkItem (now : JSDate) (h : RawRecord) : SortedItem :=
  { date := parseDate now h.timestamp
    price := h.price_actual
    clubcardPrice := h.clubcard_price }

/-- getTime of a possibly invalid date; `none` models NaN. -/
def itemTime (it : SortedItem) : Option Int := it.date.map JSDate.getTime

/-- SortCompare for the comparator `(a, b) => a.date - b.date`: true when
the comparator result is not positive; a NaN result counts as zero, hence
true. -/
def jsLe : Option Int → Option Int → Bool
  | some x, some y => decide (x ≤ y)
  | _, _ => true

/-- One insertion step of a stable sort modelling Array.prototype.sort with
the date comparator (every major engine sorts stably). -/
def sortInsert (x : SortedItem) : List SortedItem → List SortedItem
  | [] => [x]
  | y :: ys =>
    if jsLe (itemTime x) (itemTime y) then x :: y :: ys else y :: sortInsert x ys

/-- Stable sort of the mapped history, modelling
`.sort((a, b) => a.date - b.date)`. -/
def jsSort : List SortedItem → List SortedItem
  | [] => []
  | x :: xs => sortInsert x (jsSort xs)

/-- SameValueZero key equality used by Map: NaN keys match each other. -/
def keyEq : Option Int → Option Int → Bool
  | some x, some y => decide (x = y)
  | none, none => true
  | _, _ => false

/-- Map lookup after `sorted.forEach(item => map.set(item.date.getTime(), item))`:
the value written last wins.  The lookup returns the whole item; `priceMap`
and `clubcardMap` are keyed and populated identically from the same items,
so a single lookup stands for both maps. -/
def mapGet (k : Option Int) : List SortedItem → Option SortedItem
  | [] => none
  | it :: rest =>
    match mapGet k rest with
    | some v => some v
    | none => if keyEq (itemTime it) k then some it else none

/-- Floor of a rational, written so that the kernel can evaluate it. -/
def ratFloor (q : ℚ) : Int := q.num / q.den

/-- Math.round: halves round toward positive infinity. -/
def jsRound (q : ℚ) : Int := ratFloor (q + 1 / 2)

/-- JS `x || null` applied to a stored clubcard price: any falsy value
(null, undefined, or 0) becomes null. -/
def jsOrNull : Option ℚ → Option ℚ
  | some q => if q = 0 then none else some q
  | none => none

/-- Output of `processRealData`.  Each label carries the calendar day of its
grid point; the locale string rendering of a label is presentation only. -/
structure ChartData where
  labels : List Int
  prices : List (Option ℚ)
  clubcardPrices : List (Option ℚ)
deriving DecidableEq

/-- Body of the `if (priceMap.has(time))` branch for the actual price: the
stored value if the key is present, an explicit null gap otherwise. -/
def priceAt (sorted : List SortedItem) (t : Int) : Option ℚ :=
  match mapGet (some t) sorted with
  | some it => it.price
  | none => none

/-- Body of the same branch for the clubcard price, including the `|| null`
coercion applied to the stored value. -/
def clubAt (sorted : List SortedItem) (t : Int) : Option ℚ :=
  match mapGet (some t) sorted with
  | some it => jsOrNull it.clubcardPrice
  | none => none

/-- The day-grid walk of `processRealData`: `totalDays = diffDays(endDate,
startDate)` with `endDate` today at midnight, then one iteration per
`i = 0 .. totalDays`, each emitting a label for the current day and either
the mapped prices (clubcard coerced through `|| null`) or an explicit null
gap. -/
def alignFrom (sorted : List SortedItem) (endDay : Int) (start : JSDate) : ChartData :=
  let totalDays : Int := jsRound (((|endDay * oneDay - start.getTime| : Int) : ℚ) / (oneDay : ℚ))
  let idxs := List.range (totalDays + 1).toNat
  { labels := idxs.map fun (i : Nat) => start.day + (i : Int)
    prices := idxs.map fun (i : Nat) => priceAt sorted (start.getTime + (i : Int) * oneDay)
    clubcardPrices := idxs.map fun (i : Nat) => clubAt sorted (start.getTime + (i : Int) * oneDay) }

/-- The `processRealData` function of content.js.  An empty sorted array
returns the empty chart.  When the first sorted element has an Invalid
Date, `totalDays` is NaN and the `for` loop body never runs, so the empty
chart is returned as well. -/
def processRealData (now : JSDate) (history : List RawRecord) : ChartData :=
  match jsSort (history.map (mkItem now)) with
  | [] => { labels := [], prices := [], clubcardPrices := [] }
  | first :: rest =>
    match first.date with
    | none => { labels := [], prices := [], clubcardPrices := [] }
    | some start => alignFrom (first :: rest) now.day start

/-- Derived statistics of `calculateStats`; `avg` is integer valued through
Math.round and `trendPercent` is the formatted string. -/
structure DerivedStats where
  min : ℚ
  max : ℚ
  avg : Int
  current : ℚ
  trend : ℚ
  trendPercent : String
deriving DecidableEq

/-- Number.prototype.toFixed(1): the sign of the argument, then its
magnitude rounded to tenths with ties resolved to the larger candidate. -/
def toFixed1 (x : ℚ) : String :=
  let sign := if x < 0 then "-" else ""
  let n := (ratFloor (10 * |x| + 1 / 2)).toNat
  sign ++ toString (n / 10) ++ "." ++ toString (n % 10)

/-- The `calculateStats` function of content.js. -/
def calculateStats (prices : List (Option ℚ)) : DerivedStats :=
  match prices.filterMap id with
  | [] => { min := 0, max := 0, avg := 0, current := 0, trend := 0, trendPercent := "0.0" }
  | p :: rest =>
    let current := (p :: rest).getLast (List.cons_ne_nil p rest)
    { min := rest.foldl Min.min p
      max := rest.foldl Max.max p
      avg := jsRound ((p :: rest).foldl (· + ·) 0 / (((p :: rest).length : ℚ)))
      current := current
      trend := current - p
      trendPercent := if p ≠ 0 then toFixed1 ((current - p) / p * 100) else "0.0" }

/-- Lines 763-764 of content.js: `if (pagePrice) stats.current = pagePrice;`
— a truthy (non-null, nonzero) page price overrides only the current
field. -/
def applyLiveOverride (stats : DerivedStats) (pagePrice : Option ℚ) : DerivedStats :=
  match pagePrice with
  | some p => if p ≠ 0 then { stats with current := p } else stats
  | none => stats

/-- Postcondition of `readPagePrice`: it returns either null or a parsed
integer that passed its `num > 0` check. -/
def ValidPagePrice (p : Option ℚ) : Prop := ∀ x, p = some x → 0 < x

/-- The payload handed to rendering: the aligned chart data untouched, and
the possibly overridden statistics. -/
def displayPayload (chart : ChartData) (stats : DerivedStats) (pagePrice : Option ℚ) :
    ChartData × DerivedStats :=
  (chart, applyLiveOverride stats pagePrice)

/-- What a completed fetch-and-render cycle does after its staleness
check. -/
inductive RenderAction where
  | discard : RenderAction
  | render : ChartData → DerivedStats → RenderAction
deriving DecidableEq

/-- Lines 753-759 of content.js: after the asynchronous fetch resolves, the
product id currently in the URL is compared with the id the cycle started
for; on mismatch the partially built container is removed and nothing is
rendered. -/
def completeCycle (tpnc : String) (currentTpnc : Option String)
    (chart : ChartData) (stats : DerivedStats) : RenderAction :=
  if currentTpnc = some tpnc then RenderAction.render chart stats else RenderAction.discard

/-- Days on which some record with a parsable timestamp was observed. -/
def obsDays (history : List RawRecord) : List Int :=
  history.filterMap fun h =>
    match h.timestamp with
    | .valid dt _ => some dt.day
    | _ => none

/-- The sentinel statistics returned for an input with no usable price. -/
def noDataStats : DerivedStats :=
  { min := 0, max := 0, avg := 0, current := 0, trend := 0, trendPercent := "0.0" }

/-- The empty chart. -/
def emptyChart : ChartData := { labels := [], prices := [], clubcardPrices := [] }

/-- The time of a sorted item, junk valued on an Invalid Date; it agrees
with the real time on every item whose date parsed. -/
def tOf (it : SortedItem) : Int := (it.date.getD ⟨0, 0⟩).getTime

/-- What the Statistics Calculator is claimed to guarantee on an input whose
non-null prices are `p :: rest` in day order. -/
def StatsSpec (prices : List (Option ℚ)) (p : ℚ) (rest : List ℚ) : Prop :=
  (calculateStats prices).min ∈ p :: rest ∧
  (∀ x ∈ p :: rest, (calculateStats prices).min ≤ x) ∧
  (calculateStats prices).max ∈ p :: rest ∧
  (∀ x ∈ p :: rest, x ≤ (calculateStats prices).max) ∧
  (calculateStats prices).avg = jsRound ((p :: rest).sum / ((p :: rest).length : ℚ)) ∧
  (calculateStats prices).current = (p :: rest).getLast (List.cons_ne_nil p rest) ∧
  (calculateStats prices).trend = (calculateStats prices).current - p ∧
  (p ≠ 0 → (calculateStats prices).trendPercent
      = toFixed1 ((calculateStats prices).trend / p * 100)) ∧
  (p = 0 → (calculateStats prices).trendPercent = "0.0")

/-- What the Temporal Aligner is claimed to guarantee when the earliest
observed day is `f`: the series walks every day from `f` to today once, in
ascending order, has length daysBetween plus one on all three arrays, never
reaches before `f` or past today, and every unobserved day in range carries
explicit null prices in both fields. -/
def AlignedSpec (now : JSDate) (history : List RawRecord) (f : Int) : Prop :=
  f ∈ obsDays history ∧
  (∀ d ∈ obsDays history, f ≤ d) ∧
  (processRealData now history).labels
    = (List.range ((now.day - f).toNat + 1)).map (fun (i : Nat) => f + (i : Int)) ∧
  (processRealData now history).labels.length = (now.day - f).toNat + 1 ∧
  (processRealData now history).prices.length = (now.day - f).toNat + 1 ∧
  (processRealData now history).clubcardPrices.length = (now.day - f).toNat + 1 ∧
  (processRealData now history).labels.Pairwise (· < ·) ∧
  (∀ d ∈ (processRealData now history).labels, f ≤ d ∧ d ≤ now.day) ∧
  (∀ i : Nat, i < (now.day - f).toNat + 1 → f + (i : Int) ∉ obsDays history →
    (processRealData now history).prices[i]? = some none ∧
    (processRealData now history).clubcardPrices[i]? = some none)

theorem ratFloor_eq (q : ℚ) : ratFloor q = ⌊q⌋ := (Rat.floor_def).symm

theorem foldl_min_mem (l : List ℚ) (p : ℚ) : l.foldl Min.min p ∈ p :: l := by
  induction l generalizing p with
  | nil => simp
  | cons a l ih =>
    have h := ih (min p a)
    rcases List.mem_cons.mp h with h1 | h1
    · rcases min_choice p a with h2 | h2 <;> rw [List.foldl_cons, h1, h2] <;> simp
    · simp [List.foldl_cons, List.mem_cons.mpr (Or.inr h1)]

theorem foldl_min_le (l : List ℚ) (p : ℚ) : ∀ x ∈ p :: l, l.foldl Min.min p ≤ x := by
  induction l generalizing p with
  | nil => intro x hx; simp at hx; simp [hx]
  | cons a l ih =>
    intro x hx
    have hle : (a :: l).foldl Min.min p ≤ min p a := by
      rw [List.foldl_cons]
      exact ih (min p a) (min p a) (List.mem_cons_self _ _)
    rcases List.mem_cons.mp hx with h1 | h1
    · subst h1; exact le_trans hle (min_le_left _ _)
    · rcases List.mem_cons.mp h1 with h2 | h2
      · subst h2; exact le_trans hle (min_le_right _ _)
      · rw [List.foldl_cons]; exact ih (min p a) x (List.mem_cons.mpr (Or.inr h2))

theorem foldl_max_mem (l : List ℚ) (p : ℚ) : l.foldl Max.max p ∈ p :: l := by
  induction l generalizing p with
  | nil => simp
  | cons a l ih =>
    have h := ih (max p a)
    rcases List.mem_cons.mp h with h1 | h1
    · rcases max_choice p a with h2 | h2 <;> rw [List.foldl_cons, h1, h2] <;> simp
    · simp [List.foldl_cons, List.mem_cons.mpr (Or.inr h1)]

theorem foldl_max_ge (l : List ℚ) (p : ℚ) : ∀ x ∈ p :: l, x ≤ l.foldl Max.max p := by
  induction l generalizing p with
  | nil => intro x hx; simp at hx; simp [hx]
  | cons a l ih =>
    intro x hx
    have hle : max p a ≤ (a :: l).foldl Max.max p := by
      rw [List.foldl_cons]
      exact ih (max p a) (max p a) (List.mem_cons_self _ _)
    rcases List.mem_cons.mp hx with h1 | h1
    · subst h1; exact le_trans (le_max_left _ _) hle
    · rcases List.mem_cons.mp h1 with h2 | h2
      · subst h2; exact le_trans (le_max_right _ _) hle
      · rw [List.foldl_cons]; exact ih (max p a) x (List.mem_cons.mpr (Or.inr h2))

theorem foldl_add_eq_sum (l : List ℚ) (a : ℚ) : l.foldl (· + ·) a = a + l.sum := by
  induction l generalizing a with
  | nil => simp
  | cons x l ih => rw [List.foldl_cons, List.sum_cons, ih, add_assoc]

/-- C3: on any price list with at least one non-null value, `calculateStats`
returns extrema of the non-null values, the mean rounded with Math.round,
the last non-null value as current, the trend anchored at the first non-null
value, and `trendPercent` formatted by toFixed(1) with the division-by-zero
case pinned to the string zero. -/
theorem c3_statistics (prices : List (Option ℚ)) (p : ℚ) (rest : List ℚ)
    (hv : prices.filterMap id = p :: rest) : StatsSpec prices p rest := by
  have hcalc : calculateStats prices =
      { min := rest.foldl Min.min p
        max := rest.foldl Max.max p
        avg := jsRound ((p :: rest).foldl (· + ·) 0 / (((p :: rest).length : ℚ)))
        current := (p :: rest).getLast (List.cons_ne_nil p rest)
        trend := (p :: rest).getLast (List.cons_ne_nil p rest) - p
        trendPercent := if p ≠ 0
          then toFixed1 (((p :: rest).getLast (List.cons_ne_nil p rest) - p) / p * 100)
          else "0.0" } := by
    unfold calculateStats
    rw [hv]
  refine ⟨?_, ?_, ?_, ?_, ?_, ?_, ?_, ?_, ?_⟩
  · rw [hcalc]; exact foldl_min_mem rest p
  · rw [hcalc]; exact foldl_min_le rest p
  · rw [hcalc]; exact foldl_max_mem rest p
  · rw [hcalc]; exact foldl_max_ge rest p
  · rw [hcalc]; rw [foldl_add_eq_sum, zero_add]
  · rw [hcalc]
  · rw [hcalc]
  · intro hp; rw [hcalc]; simp [hp]
  · intro hp; rw [hcalc]; simp [hp]

theorem c3_statistics_witness :
    List.filterMap id [some (100 : ℚ), none, some 120] = [100, 120] ∧
    StatsSpec [some (100 : ℚ), none, some 120] 100 [120] :=
  ⟨by simp, c3_statistics [some (100 : ℚ), none, some 120] 100 [120] (by simp)⟩

/-- C4: the live page price overrides only the displayed current price; the
other statistics and the chart series are untouched.  The hypothesis is the
postcondition of `readPagePrice`: an available live price is positive. -/
theorem c4_live_override (chart : ChartData) (stats : DerivedStats) (live : Option ℚ)
    (hlive : ValidPagePrice live) :
    (∀ p, live = some p → (applyLiveOverride stats live).current = p) ∧
    (live = none → (applyLiveOverride stats live).current = stats.current) ∧
    (applyLiveOverride stats live).min = stats.min ∧
    (applyLiveOverride stats live).max = stats.max ∧
    (applyLiveOverride stats live).avg = stats.avg ∧
    (applyLiveOverride stats live).trend = stats.trend ∧
    (applyLiveOverride stats live).trendPercent = stats.trendPercent ∧
    (displayPayload chart stats live).1 = chart := by
  cases live with
  | none =>
    refine ⟨?_, ?_, ?_, ?_, ?_, ?_, ?_, ?_⟩
    · intro p hp
      exact absurd hp (by simp)
    · intro _
      rfl
    all_goals rfl
  | some q =>
    have hq : 0 < q := hlive q rfl
    have hne : q ≠ 0 := ne_of_gt hq
    refine ⟨?_, ?_, ?_, ?_, ?_, ?_, ?_, ?_⟩
    · intro p hp
      injection hp with hpq
      subst hpq
      simp [applyLiveOverride, hne]
    · intro h
      exact absurd h (by simp)
    · simp [applyLiveOverride, hne]
    · simp [applyLiveOverride, hne]
    · simp [applyLiveOverride, hne]
    · simp [applyLiveOverride, hne]
    · simp [applyLiveOverride, hne]
    · rfl

theorem c4_live_override_witness :
    ValidPagePrice (some (90 : ℚ)) ∧
    ((∀ p, (some (90 : ℚ)) = some p → (applyLiveOverride noDataStats (some 90)).current = p) ∧
      ((some (90 : ℚ)) = none → (applyLiveOverride noDataStats (some 90)).current
          = noDataStats.current) ∧
      (applyLiveOverride noDataStats (some 90)).min = noDataStats.min ∧
      (applyLiveOverride noDataStats (some 90)).max = noDataStats.max ∧
      (applyLiveOverride noDataStats (some 90)).avg = noDataStats.avg ∧
      (applyLiveOverride noDataStats (some 90)).trend = noDataStats.trend ∧
      (applyLiveOverride noDataStats (some 90)).trendPercent = noDataStats.trendPercent ∧
      (displayPayload emptyChart noDataStats (some 90)).1 = emptyChart) := by
  have hv : ValidPagePrice (some (90 : ℚ)) := by
    intro x hx
    cases hx
    norm_num
  exact ⟨hv, c4_live_override emptyChart noDataStats (some 90) hv⟩

/-- C7: the Temporal Aligner of the embedding is a deterministic pure
function of the parsed history and the current date; two runs on the same
input and the same today produce the same labels and both price arrays. -/
theorem c7_aligner_deterministic (now : JSDate) (history : List RawRecord)
    (out1 out2 : ChartData)
    (h1 : processRealData now history = out1) (h2 : processRealData now history = out2) :
    out1.labels = out2.labels ∧ out1.prices = out2.prices ∧
    out1.clubcardPrices = out2.clubcardPrices := by
  subst h1
  subst h2
  exact ⟨rfl, rfl, rfl⟩

theorem c7_aligner_deterministic_witness :
    processRealData ⟨0, 0⟩ [] = emptyChart ∧
    (emptyChart.labels = emptyChart.labels ∧ emptyChart.prices = emptyChart.prices ∧
      emptyChart.clubcardPrices = emptyChart.clubcardPrices) :=
  ⟨rfl, c7_aligner_deterministic ⟨0, 0⟩ [] emptyChart emptyChart rfl rfl⟩

/-- C10: when the asynchronous fetch completes and the product id in the URL
no longer matches the id the cycle was started for, the cycle discards the
result and renders nothing. -/
theorem c10_stale_discarded (tpnc : String) (currentTpnc : Option String)
    (chart : ChartData) (stats : DerivedStats) (h : currentTpnc ≠ some tpnc) :
    completeCycle tpnc currentTpnc chart stats = RenderAction.discard := by
  unfold completeCycle
  simp [h]

theorem c10_stale_discarded_witness :
    (some "111222333" : Option String) ≠ some "999888777" ∧
    completeCycle "999888777" (some "111222333") emptyChart noDataStats
      = RenderAction.discard := by
  have h : (some "111222333" : Option String) ≠ some "999888777" := by decide
  exact ⟨h, c10_stale_discarded "999888777" (some "111222333") emptyChart noDataStats h⟩

/-- C5 counterexample: a batch holding one clubcard-only observation has an
empty set of non-null actual prices, yet the Aligner output is a non-empty
series (one all-null-price day from the observation day to today), so the
claim that the Aligner returns an empty series whenever the filtered price
set is empty is false. -/
theorem c5_counterexample :
    (processRealData ⟨0, 0⟩ [⟨.valid ⟨0, 0⟩ 0, none, some 50⟩]).prices.filterMap id = [] ∧
    (processRealData ⟨0, 0⟩ [⟨.valid ⟨0, 0⟩ 0, none, some 50⟩]).labels ≠ [] := by
  norm_num [processRealData, jsSort, sortInsert, mkItem, parseDate, itemTime, jsLe, alignFrom,
    priceAt, clubAt, mapGet, keyEq, jsRound, ratFloor_eq, oneDay, jsOrNull, JSDate.getTime,
    List.range_succ, Int.toNat_ofNat]

theorem sortInsert_perm (x : SortedItem) : ∀ l : List SortedItem, (sortInsert x l).Perm (x :: l)
  | [] => List.Perm.refl _
  | y :: ys => by
    rw [sortInsert]
    split
    · exact List.Perm.refl _
    · exact ((sortInsert_perm x ys).cons y).trans (List.Perm.swap x y ys)

theorem jsSort_perm : ∀ l : List SortedItem, (jsSort l).Perm l
  | [] => List.Perm.refl _
  | x :: xs => (sortInsert_perm x (jsSort xs)).trans ((jsSort_perm xs).cons x)

theorem jsLe_valid (a b : SortedItem) (ha : a.date.isSome) (hb : b.date.isSome) :
    jsLe (itemTime a) (itemTime b) = decide (tOf a ≤ tOf b) := by
  obtain ⟨da, hda⟩ := Option.isSome_iff_exists.mp ha
  obtain ⟨db, hdb⟩ := Option.isSome_iff_exists.mp hb
  simp [itemTime, jsLe, tOf, hda, hdb]

theorem jsLe_none_left (t : Option Int) : jsLe none t = true := by
  cases t <;> rfl

theorem sortInsert_of_invalid (x : SortedItem) (hx : itemTime x = none) :
    ∀ l : List SortedItem, sortInsert x l = x :: l
  | [] => rfl
  | y :: ys => by
    rw [sortInsert, hx, jsLe_none_left, if_pos rfl]

theorem sortInsert_sorted (x : SortedItem) (l : List SortedItem)
    (hx : x.date.isSome) (hl : ∀ y ∈ l, y.date.isSome)
    (hs : l.Pairwise fun a b => tOf a ≤ tOf b) :
    (sortInsert x l).Pairwise fun a b => tOf a ≤ tOf b := by
  induction l with
  | nil => simp [sortInsert]
  | cons y ys ih =>
    have hy : y.date.isSome := hl y (List.mem_cons_self y ys)
    have hys : ∀ z ∈ ys, z.date.isSome := fun z hz => hl z (List.mem_cons.mpr (Or.inr hz))
    rw [sortInsert, jsLe_valid x y hx hy]
    rcases List.pairwise_cons.mp hs with ⟨hyz, hsys⟩
    by_cases h : tOf x ≤ tOf y
    · rw [if_pos (by simpa using h)]
      refine List.pairwise_cons.mpr ⟨?_, hs⟩
      intro z hz
      rcases List.mem_cons.mp hz with h1 | h1
      · subst h1; exact h
      · exact le_trans h (hyz z h1)
    · rw [if_neg (by simpa using h)]
      refine List.pairwise_cons.mpr ⟨?_, ih hys hsys⟩
      intro z hz
      have hz2 : z ∈ x :: ys := (sortInsert_perm x ys).mem_iff.mp hz
      rcases List.mem_cons.mp hz2 with h1 | h1
      · subst h1; exact le_of_not_le h
      · exact hyz z h1

theorem jsSort_sorted (l : List SortedItem) (hl : ∀ y ∈ l, y.date.isSome) :
    (jsSort l).Pairwise fun a b => tOf a ≤ tOf b := by
  induction l with
  | nil => simp [jsSort]
  | cons x xs ih =>
    have hx : x.date.isSome := hl x (List.mem_cons_self x xs)
    have hxs : ∀ y ∈ xs, y.date.isSome := fun y hy => hl y (List.mem_cons.mpr (Or.inr hy))
    rw [jsSort]
    refine sortInsert_sorted x (jsSort xs) hx ?_ (ih hxs)
    intro y hy
    exact hxs y ((jsSort_perm xs).mem_iff.mp hy)

theorem jsSort_head_min (l : List SortedItem) (hl : ∀ y ∈ l, y.date.isSome)
    (first : SortedItem) (rest : List SortedItem) (h : jsSort l = first :: rest) :
    first ∈ l ∧ ∀ y ∈ l, tOf first ≤ tOf y := by
  have hperm : (first :: rest).Perm l := h ▸ jsSort_perm l
  constructor
  · exact hperm.mem_iff.mp (List.mem_cons_self first rest)
  · intro y hy
    have hsorted := jsSort_sorted l hl
    rw [h] at hsorted
    rcases List.pairwise_cons.mp hsorted with ⟨hmin, _⟩
    rcases List.mem_cons.mp (hperm.mem_iff.mpr hy) with h1 | h1
    · subst h1; exact le_refl _
    · exact hmin y h1

theorem mapGet_eq_none (k : Option Int) (l : List SortedItem)
    (h : ∀ it ∈ l, keyEq (itemTime it) k = false) : mapGet k l = none := by
  induction l with
  | nil => rfl
  | cons it rest ih =>
    have hrest : mapGet k rest = none :=
      ih fun x hx => h x (List.mem_cons.mpr (Or.inr hx))
    rw [mapGet, hrest, h it (List.mem_cons_self it rest)]
    simp

theorem mapGet_mem (k : Option Int) (l : List SortedItem) (v : SortedItem)
    (h : mapGet k l = some v) : v ∈ l ∧ keyEq (itemTime v) k = true := by
  induction l with
  | nil => cases h
  | cons it rest ih =>
    rw [mapGet] at h
    cases hrest : mapGet k rest with
    | some w =>
      rw [hrest] at h
      injection h with hw
      subst hw
      rcases ih hrest with ⟨hmem, hkey⟩
      exact ⟨List.mem_cons.mpr (Or.inr hmem), hkey⟩
    | none =>
      rw [hrest] at h
      by_cases hk : keyEq (itemTime it) k = true
      · rw [if_pos hk] at h
        injection h with hw
        subst hw
        exact ⟨List.mem_cons_self it rest, hk⟩
      · rw [if_neg hk] at h
        cases h

theorem jsRound_intCast (k : Int) : jsRound ((k : Int) : ℚ) = k := by
  rw [jsRound, ratFloor_eq]
  rw [Int.floor_int_add]
  norm_num

theorem totalDays_eq (a b : Int) (h : b ≤ a) :
    jsRound (((|a * oneDay - JSDate.getTime ⟨b, 0⟩| : Int) : ℚ) / ((oneDay : Int) : ℚ)) = a - b := by
  have hone : (0 : Int) < oneDay := by norm_num [oneDay]
  have habs : |a * oneDay - JSDate.getTime ⟨b, 0⟩| = (a - b) * oneDay := by
    rw [JSDate.getTime]
    have h1 : a * oneDay - (b * oneDay + 0) = (a - b) * oneDay := by ring
    rw [h1]
    exact abs_of_nonneg (mul_nonneg (by omega) (le_of_lt hone))
  rw [habs]
  have hcast : (((a - b) * oneDay : Int) : ℚ) = ((a - b : Int) : ℚ) * ((oneDay : Int) : ℚ) := by
    push_cast
    ring
  rw [hcast, mul_div_assoc, div_self (by positivity), mul_one, jsRound_intCast]

theorem alignFrom_labels (sorted : List SortedItem) (endDay f : Int) (h : f ≤ endDay) :
    (alignFrom sorted endDay ⟨f, 0⟩).labels
      = (List.range ((endDay - f).toNat + 1)).map fun (i : Nat) => f + (i : Int) := by
  simp only [alignFrom]
  rw [totalDays_eq endDay f h]
  have h2 : (endDay - f + 1).toNat = (endDay - f).toNat + 1 := by omega
  rw [h2]

theorem alignFrom_prices_length (sorted : List SortedItem) (endDay f : Int) (h : f ≤ endDay) :
    (alignFrom sorted endDay ⟨f, 0⟩).prices.length = (endDay - f).toNat + 1 := by
  simp only [alignFrom]
  rw [totalDays_eq endDay f h]
  have h2 : (endDay - f + 1).toNat = (endDay - f).toNat + 1 := by omega
  rw [List.length_map, List.length_range, h2]

theorem alignFrom_club_length (sorted : List SortedItem) (endDay f : Int) (h : f ≤ endDay) :
    (alignFrom sorted endDay ⟨f, 0⟩).clubcardPrices.length = (endDay - f).toNat + 1 := by
  simp only [alignFrom]
  rw [totalDays_eq endDay f h]
  have h2 : (endDay - f + 1).toNat = (endDay - f).toNat + 1 := by omega
  rw [List.length_map, List.length_range, h2]

theorem alignFrom_prices_getElem (sorted : List SortedItem) (endDay f : Int) (h : f ≤ endDay)
    (i : Nat) (hi : i < (endDay - f).toNat + 1) :
    (alignFrom sorted endDay ⟨f, 0⟩).prices[i]?
      = some (priceAt sorted ((f + (i : Int)) * oneDay)) := by
  simp only [alignFrom]
  rw [totalDays_eq endDay f h]
  have h2 : (endDay - f + 1).toNat = (endDay - f).toNat + 1 := by omega
  rw [h2, List.getElem?_map, List.getElem?_range hi]
  have h3 : JSDate.getTime ⟨f, 0⟩ + (i : Int) * oneDay = (f + (i : Int)) * oneDay := by
    rw [JSDate.getTime]
    ring
  rw [Option.map_some', h3]

theorem alignFrom_club_getElem (sorted : List SortedItem) (endDay f : Int) (h : f ≤ endDay)
    (i : Nat) (hi : i < (endDay - f).toNat + 1) :
    (alignFrom sorted endDay ⟨f, 0⟩).clubcardPrices[i]?
      = some (clubAt sorted ((f + (i : Int)) * oneDay)) := by
  simp only [alignFrom]
  rw [totalDays_eq endDay f h]
  have h2 : (endDay - f + 1).toNat = (endDay - f).toNat + 1 := by omega
  rw [h2, List.getElem?_map, List.getElem?_range hi]
  have h3 : JSDate.getTime ⟨f, 0⟩ + (i : Int) * oneDay = (f + (i : Int)) * oneDay := by
    rw [JSDate.getTime]
    ring
  rw [Option.map_some', h3]

/-- C1: on a non-empty batch of parsable observations whose days do not lie
in the future, the aligned series is exactly the walk of every calendar day
from the earliest observed day to today, once each, ascending; its three
arrays all have length daysBetween plus one; no emitted day precedes the
first observed day or follows today; and every day without an observation
carries explicit nulls in both price fields. -/
theorem c1_temporal_alignment (now : JSDate) (history : List RawRecord)
    (hne : history ≠ [])
    (hvalid : ∀ h ∈ history, ∃ dt k, h.timestamp = RawTimestamp.valid dt k)
    (hpast : ∀ d ∈ obsDays history, d ≤ now.day) :
    ∃ f : Int, AlignedSpec now history f := by
  have hone : (0 : Int) < oneDay := by norm_num [oneDay]
  set items := history.map (mkItem now) with hitems_def
  have hitem_shape : ∀ it ∈ items, ∃ d : Int, it.date = some ⟨d, 0⟩ ∧ d ∈ obsDays history := by
    intro it hit
    rcases List.mem_map.mp hit with ⟨h0, hh0, rfl⟩
    rcases hvalid h0 hh0 with ⟨dt, k, htk⟩
    refine ⟨dt.day, ?_, ?_⟩
    · simp [mkItem, parseDate, htk]
    · exact List.mem_filterMap.mpr ⟨h0, hh0, by rw [htk]⟩
  have hval : ∀ it ∈ items, it.date.isSome := by
    intro it hit
    rcases hitem_shape it hit with ⟨d, hd, _⟩
    simp [hd]
  have hlen : items ≠ [] := by
    intro h
    exact hne (List.map_eq_nil_iff.mp (hitems_def ▸ h))
  obtain ⟨first, rest, hs⟩ : ∃ first rest, jsSort items = first :: rest := by
    cases hjs : jsSort items with
    | nil =>
      exfalso
      have hln := (jsSort_perm items).length_eq
      rw [hjs] at hln
      simp at hln
      exact hlen (List.length_eq_zero.mp hln.symm)
    | cons a b => exact ⟨a, b, rfl⟩
  obtain ⟨hfmem, hfmin⟩ := jsSort_head_min items hval first rest hs
  rcases hitem_shape first hfmem with ⟨f, hfdate, hfobs⟩
  have hsp : (first :: rest).Perm items := hs ▸ jsSort_perm items
  have hmin : ∀ d ∈ obsDays history, f ≤ d := by
    intro d hd
    rcases List.mem_filterMap.mp hd with ⟨h0, hh0, hmatch⟩
    rcases hvalid h0 hh0 with ⟨dt, k, htk⟩
    rw [htk] at hmatch
    have hdd : dt.day = d := by
      simpa using hmatch
    have hmem2 : mkItem now h0 ∈ items := List.mem_map_of_mem _ hh0
    have hle := hfmin (mkItem now h0) hmem2
    rw [tOf, tOf, hfdate] at hle
    simp only [mkItem, parseDate, htk, Option.getD_some, JSDate.getTime] at hle
    rw [← hdd]
    have hmul : f * oneDay ≤ dt.day * oneDay := by
      simpa using hle
    exact le_of_mul_le_mul_right hmul hone
  have hfpast : f ≤ now.day := hpast f hfobs
  have hpr : processRealData now history = alignFrom (first :: rest) now.day ⟨f, 0⟩ := by
    unfold processRealData
    rw [← hitems_def, hs]
    simp only [hfdate]
  have hobs_of_item : ∀ it ∈ first :: rest, ∃ d : Int, it.date = some ⟨d, 0⟩ ∧ d ∈ obsDays history :=
    fun it hit => hitem_shape it (hsp.mem_iff.mp hit)
  have hgap : ∀ i : Nat, f + (i : Int) ∉ obsDays history →
      mapGet (some ((f + (i : Int)) * oneDay)) (first :: rest) = none := by
    intro i hnot
    apply mapGet_eq_none
    intro it hit
    rcases hobs_of_item it hit with ⟨d, hd, hdobs⟩
    rw [itemTime, hd]
    simp only [Option.map_some', keyEq, JSDate.getTime, decide_eq_false_iff_not]
    intro heq
    apply hnot
    have hdeq : d = f + (i : Int) := by
      have : d * oneDay = (f + (i : Int)) * oneDay := by omega
      exact mul_right_cancel₀ (ne_of_gt hone) this
    exact hdeq ▸ hdobs
  refine ⟨f, hfobs, hmin, ?_, ?_, ?_, ?_, ?_, ?_, ?_⟩
  · rw [hpr]
    exact alignFrom_labels _ _ _ hfpast
  · rw [hpr, alignFrom_labels _ _ _ hfpast]
    rw [List.length_map, List.length_range]
  · rw [hpr]
    exact alignFrom_prices_length _ _ _ hfpast
  · rw [hpr]
    exact alignFrom_club_length _ _ _ hfpast
  · rw [hpr, alignFrom_labels _ _ _ hfpast]
    refine List.Pairwise.map _ ?_ (List.pairwise_lt_range _)
    intro a b hab
    omega
  · intro d hd
    rw [hpr, alignFrom_labels _ _ _ hfpast] at hd
    rcases List.mem_map.mp hd with ⟨i, hi, rfl⟩
    rw [List.mem_range] at hi
    constructor
    · omega
    · omega
  · intro i hi hnot
    constructor
    · rw [hpr, alignFrom_prices_getElem _ _ _ hfpast i hi]
      rw [priceAt, hgap i hnot]
    · rw [hpr, alignFrom_club_getElem _ _ _ hfpast i hi]
      rw [clubAt, hgap i hnot]

theorem mapGet_singleton_hit (it : SortedItem) (t : Int) (h : itemTime it = some t) :
    mapGet (some t) [it] = some it := by
  rw [mapGet, mapGet, h]
  simp [keyEq]

theorem priceAt_of_all_none (sorted : List SortedItem) (t : Int)
    (h : ∀ it ∈ sorted, it.price = none) : priceAt sorted t = none := by
  rw [priceAt]
  cases hm : mapGet (some t) sorted with
  | none => rfl
  | some v =>
    rcases mapGet_mem _ _ _ hm with ⟨hv, _⟩
    exact h v hv

theorem singleItem_time (now : JSDate) (d ms : Int) (k : Nat) (a c : Option ℚ) (i : Nat) :
    itemTime (mkItem now ⟨.valid ⟨d, ms⟩ k, a, c⟩) = some ((d + (i : Int)) * oneDay) ↔ (i : Int) = 0 := by
  constructor
  · intro h
    simp only [mkItem, parseDate, itemTime, Option.map_some', JSDate.getTime] at h
    have h2 : d * oneDay + 0 = (d + (i : Int)) * oneDay := by
      injection h
    have hone : (0 : Int) < oneDay := by norm_num [oneDay]
    nlinarith [h2]
  · intro h
    simp only [mkItem, parseDate, itemTime, Option.map_some', JSDate.getTime, h]
    norm_num

theorem single_record_reduction (now : JSDate) (d ms : Int) (k : Nat) (a c : Option ℚ) :
    processRealData now [⟨.valid ⟨d, ms⟩ k, a, c⟩]
      = alignFrom [⟨some ⟨d, 0⟩, a, c⟩] now.day ⟨d, 0⟩ := by
  unfold processRealData
  have hit : jsSort ([(⟨.valid ⟨d, ms⟩ k, a, c⟩ : RawRecord)].map (mkItem now))
      = [⟨some ⟨d, 0⟩, a, c⟩] := by
    simp [jsSort, sortInsert, mkItem, parseDate]
  rw [hit]

theorem single_record_lookup (d : Int) (a c : Option ℚ) :
    mapGet (some ((d + ((0 : Nat) : Int)) * oneDay)) [⟨some ⟨d, 0⟩, a, c⟩]
      = some ⟨some ⟨d, 0⟩, a, c⟩ := by
  apply mapGet_singleton_hit
  simp only [itemTime, Option.map_some', JSDate.getTime]
  norm_num

/-- C9: a stored clubcard price of zero is reported as null in the aligned
series (the `|| null` coercion), indistinguishable from a day with no
clubcard observation, while the actual price field passes through without
this coercion (a stored actual price, zero included, is emitted as is). -/
theorem c9_clubcard_zero_coerced (now : JSDate) (d ms : Int) (k : Nat) (a : Option ℚ)
    (hd : d ≤ now.day) :
    (processRealData now [⟨.valid ⟨d, ms⟩ k, a, some 0⟩]).clubcardPrices[0]? = some none ∧
    (processRealData now [⟨.valid ⟨d, ms⟩ k, a, some 0⟩]).prices[0]? = some a := by
  have hi0 : 0 < (now.day - d).toNat + 1 := Nat.succ_pos _
  rw [single_record_reduction]
  constructor
  · rw [alignFrom_club_getElem _ _ _ hd 0 hi0, clubAt, single_record_lookup]
    simp [jsOrNull]
  · rw [alignFrom_prices_getElem _ _ _ hd 0 hi0, priceAt, single_record_lookup]

theorem c9_clubcard_zero_coerced_witness :
    (0 : Int) ≤ 1 ∧
    ((processRealData ⟨1, 0⟩ [⟨.valid ⟨0, 5⟩ 0, some 0, some 0⟩]).clubcardPrices[0]?
        = some none ∧
      (processRealData ⟨1, 0⟩ [⟨.valid ⟨0, 5⟩ 0, some 0, some 0⟩]).prices[0]?
        = some (some 0)) :=
  ⟨by norm_num, c9_clubcard_zero_coerced ⟨1, 0⟩ 0 5 0 (some 0) (by norm_num)⟩

/-- C8, amended: an observation with a parsable timestamp and a nonzero
clubcard price but no actual price is retained: its clubcard value appears
on its day while the actual price is an explicit null.  An observation with
both price fields null emits no price values at all, but it is not dropped:
it still sets the start of the range, so the series spans from its day to
today. -/
theorem c8_amended (now : JSDate) (d ms : Int) (k : Nat) (c : ℚ)
    (hc : c ≠ 0) (hd : d ≤ now.day) :
    ((processRealData now [⟨.valid ⟨d, ms⟩ k, none, some c⟩]).clubcardPrices[0]?
        = some (some c) ∧
      (processRealData now [⟨.valid ⟨d, ms⟩ k, none, some c⟩]).prices[0]? = some none) ∧
    ((processRealData now [⟨.valid ⟨d, ms⟩ k, none, none⟩]).labels.length
        = (now.day - d).toNat + 1 ∧
      ∀ q ∈ (processRealData now [⟨.valid ⟨d, ms⟩ k, none, none⟩]).prices, q = none) := by
  have hi0 : 0 < (now.day - d).toNat + 1 := Nat.succ_pos _
  refine ⟨⟨?_, ?_⟩, ?_, ?_⟩
  · rw [single_record_reduction, alignFrom_club_getElem _ _ _ hd 0 hi0, clubAt,
      single_record_lookup]
    simp [jsOrNull, hc]
  · rw [single_record_reduction, alignFrom_prices_getElem _ _ _ hd 0 hi0, priceAt,
      single_record_lookup]
  · rw [single_record_reduction]
    have := alignFrom_labels [⟨some ⟨d, 0⟩, none, none⟩] now.day d hd
    rw [this, List.length_map, List.length_range]
  · intro q hq
    rw [single_record_reduction] at hq
    simp only [alignFrom] at hq
    rcases List.mem_map.mp hq with ⟨i, _, rfl⟩
    apply priceAt_of_all_none
    intro it hit
    rcases List.mem_singleton.mp hit with rfl
    rfl

theorem c8_amended_witness :
    (50 : ℚ) ≠ 0 ∧ (0 : Int) ≤ 3 ∧
    (((processRealData ⟨3, 0⟩ [⟨.valid ⟨0, 7⟩ 2, none, some 50⟩]).clubcardPrices[0]?
          = some (some 50) ∧
        (processRealData ⟨3, 0⟩ [⟨.valid ⟨0, 7⟩ 2, none, some 50⟩]).prices[0]? = some none) ∧
      ((processRealData ⟨3, 0⟩ [⟨.valid ⟨0, 7⟩ 2, none, none⟩]).labels.length
          = (3 - 0 : Int).toNat + 1 ∧
        ∀ q ∈ (processRealData ⟨3, 0⟩ [⟨.valid ⟨0, 7⟩ 2, none, none⟩]).prices, q = none)) :=
  ⟨by norm_num, by norm_num, c8_amended ⟨3, 0⟩ 0 7 2 50 (by norm_num) (by norm_num)⟩

/-- C8 counterexample: prepending an observation with both price fields null
on an earlier day changes the series range — the output grows from one day
to six — so a both-null observation does not leave firstObservedDay and the
range unchanged as the claim requires. -/
theorem c8_counterexample :
    (processRealData ⟨5, 0⟩ [⟨.valid ⟨0, 0⟩ 0, none, none⟩,
        ⟨.valid ⟨5, 0⟩ 0, some 100, none⟩]).labels.length = 6 ∧
    (processRealData ⟨5, 0⟩ [⟨.valid ⟨5, 0⟩ 0, some 100, none⟩]).labels.length = 1 := by
  constructor
  · norm_num [processRealData, jsSort, sortInsert, mkItem, parseDate, itemTime, jsLe, alignFrom,
      priceAt, clubAt, mapGet, keyEq, jsRound, ratFloor_eq, oneDay, jsOrNull, JSDate.getTime,
      List.range_succ, Int.toNat_ofNat]
    decide
  · norm_num [processRealData, jsSort, sortInsert, mkItem, parseDate, itemTime, jsLe, alignFrom,
      priceAt, clubAt, mapGet, keyEq, jsRound, ratFloor_eq, oneDay, jsOrNull, JSDate.getTime,
      List.range_succ, Int.toNat_ofNat]

/-- C6, amended: a record with an unparsable timestamp is not dropped; it is
carried along with an invalid date whose comparator result is treated as
zero, so a stable sort leaves it in front of everything; whenever it heads
the sorted array the day range is NaN and the returned chart is empty — one
malformed record can blank the whole chart. -/
theorem c6_amended (now : JSDate) (m : RawRecord) (rest : List RawRecord)
    (hm : m.timestamp = RawTimestamp.invalid) :
    processRealData now (m :: rest) = emptyChart := by
  have hmk : itemTime (mkItem now m) = none := by
    simp [mkItem, parseDate, hm, itemTime]
  have hsort : jsSort ((m :: rest).map (mkItem now))
      = mkItem now m :: jsSort (rest.map (mkItem now)) := by
    rw [List.map_cons, jsSort, sortInsert_of_invalid _ hmk]
  unfold processRealData
  rw [hsort]
  have hdate : (mkItem now m).date = none := by
    simp [mkItem, parseDate, hm]
  simp only [hdate]
  rfl

theorem c6_amended_witness :
    (⟨RawTimestamp.invalid, some 999, none⟩ : RawRecord).timestamp = RawTimestamp.invalid ∧
    processRealData ⟨0, 0⟩ [⟨.invalid, some 999, none⟩, ⟨.valid ⟨0, 0⟩ 0, some 100, none⟩]
      = emptyChart :=
  ⟨rfl, c6_amended ⟨0, 0⟩ ⟨.invalid, some 999, none⟩ [⟨.valid ⟨0, 0⟩ 0, some 100, none⟩] rfl⟩

/-- C6 counterexample: with a malformed record in front of one good record
the chart comes out empty, while dropping the malformed record would give a
one-day series — so the malformed record is not simply skipped; it blanks
the chart. -/
theorem c6_counterexample :
    processRealData ⟨0, 0⟩ [⟨.invalid, some 999, none⟩, ⟨.valid ⟨0, 0⟩ 0, some 100, none⟩]
      = emptyChart ∧
    processRealData ⟨0, 0⟩ [⟨.valid ⟨0, 0⟩ 0, some 100, none⟩]
      = { labels := [0], prices := [some 100], clubcardPrices := [none] } ∧
    emptyChart ≠ ({ labels := [0], prices := [some 100], clubcardPrices := [none] } : ChartData) := by
  refine ⟨?_, ?_, ?_⟩
  · norm_num [processRealData, jsSort, sortInsert, mkItem, parseDate, itemTime, jsLe, emptyChart]
  · norm_num [processRealData, jsSort, sortInsert, mkItem, parseDate, itemTime, jsLe, alignFrom,
      priceAt, clubAt, mapGet, keyEq, jsRound, ratFloor_eq, oneDay, jsOrNull, JSDate.getTime,
      List.range_succ, Int.toNat_ofNat]
  · intro h
    have := congrArg ChartData.labels h
    simp [emptyChart] at this

theorem keyEq_some_of_valid (it : SortedItem) (k : Option Int) (hit : it.date.isSome)
    (h : keyEq (itemTime it) k = true) : ∃ t, k = some t ∧ tOf it = t := by
  obtain ⟨dt, hdt⟩ := Option.isSome_iff_exists.mp hit
  rw [itemTime, hdt, Option.map_some'] at h
  cases k with
  | none => exact absurd h (by simp [keyEq])
  | some t =>
    refine ⟨t, rfl, ?_⟩
    rw [tOf, hdt, Option.getD_some]
    simpa [keyEq] using h

theorem mapGet_eq_getLast_filter (k : Option Int) (l : List SortedItem) :
    mapGet k l = (l.filter fun it => keyEq (itemTime it) k).getLast? := by
  induction l with
  | nil => rfl
  | cons it rest ih =>
    cases hrest : mapGet k rest with
    | some w =>
      rw [hrest] at ih
      have hmg : mapGet k (it :: rest) = some w := by
        rw [mapGet, hrest]
      have hne : rest.filter (fun it => keyEq (itemTime it) k) ≠ [] := by
        intro hnil
        rw [hnil] at ih
        cases ih
      obtain ⟨a, t, hat⟩ := List.exists_cons_of_ne_nil hne
      rw [hmg, List.filter_cons]
      by_cases hk : keyEq (itemTime it) k = true
      · rw [if_pos hk, hat, List.getLast?_cons_cons, ← hat, ← ih]
      · rw [if_neg hk, ← ih]
    | none =>
      rw [hrest] at ih
      have hnil : rest.filter (fun it => keyEq (itemTime it) k) = [] :=
        List.getLast?_eq_none_iff.mp ih.symm
      by_cases hk : keyEq (itemTime it) k = true
      · have hmg : mapGet k (it :: rest) = some it := by
          rw [mapGet, hrest]
          simp [hk]
        rw [hmg, List.filter_cons, if_pos hk, hnil]
        rfl
      · have hmg : mapGet k (it :: rest) = none := by
          rw [mapGet, hrest]
          simp [hk]
        rw [hmg, List.filter_cons, if_neg hk, hnil]
        rfl

theorem filter_sortInsert (k : Option Int) (x : SortedItem) (l : List SortedItem)
    (hx : x.date.isSome) (hl : ∀ y ∈ l, y.date.isSome) :
    ((sortInsert x l).filter fun it => keyEq (itemTime it) k)
      = (x :: l).filter fun it => keyEq (itemTime it) k := by
  induction l with
  | nil => rfl
  | cons y ys ih =>
    have hy : y.date.isSome := hl y (List.mem_cons_self y ys)
    have hys : ∀ z ∈ ys, z.date.isSome := fun z hz => hl z (List.mem_cons.mpr (Or.inr hz))
    rw [sortInsert]
    by_cases h : jsLe (itemTime x) (itemTime y) = true
    · rw [if_pos h]
    · rw [if_neg h]
      have hlt : ¬ tOf x ≤ tOf y := by
        rw [jsLe_valid x y hx hy] at h
        simpa using h
      have hnotboth : ¬ (keyEq (itemTime x) k = true ∧ keyEq (itemTime y) k = true) := by
        rintro ⟨px, py⟩
        rcases keyEq_some_of_valid x k hx px with ⟨t, rfl, htx⟩
        rcases keyEq_some_of_valid y (some t) hy py with ⟨t2, ht2, hty⟩
        injection ht2 with ht2
        exact hlt (le_of_eq (htx.trans (ht2 ▸ hty.symm)))
      by_cases px : keyEq (itemTime x) k = true
      · have py : keyEq (itemTime y) k = false := by
          have hnp : ¬ keyEq (itemTime y) k = true := fun hpy => hnotboth ⟨px, hpy⟩
          simpa using hnp
        simp only [List.filter_cons, px, py, ih hys]
        simp
      · have pxf : keyEq (itemTime x) k = false := by
          simpa using px
        by_cases py : keyEq (itemTime y) k = true
        · simp only [List.filter_cons, pxf, py, ih hys]
          simp
        · have pyf : keyEq (itemTime y) k = false := by
            simpa using py
          simp only [List.filter_cons, pxf, pyf, ih hys]
          simp

theorem filter_jsSort (k : Option Int) (l : List SortedItem)
    (hl : ∀ y ∈ l, y.date.isSome) :
    ((jsSort l).filter fun it => keyEq (itemTime it) k)
      = l.filter fun it => keyEq (itemTime it) k := by
  induction l with
  | nil => rfl
  | cons x xs ih =>
    have hx : x.date.isSome := hl x (List.mem_cons_self x xs)
    have hxs : ∀ y ∈ xs, y.date.isSome := fun y hy => hl y (List.mem_cons.mpr (Or.inr hy))
    have hsorted_val : ∀ y ∈ jsSort xs, y.date.isSome :=
      fun y hy => hxs y ((jsSort_perm xs).mem_iff.mp hy)
    rw [jsSort, filter_sortInsert k x (jsSort xs) hx hsorted_val]
    rw [List.filter_cons, List.filter_cons]
    by_cases px : keyEq (itemTime x) k = true
    · rw [if_pos px, if_pos px, ih hxs]
    · rw [if_neg px, if_neg px, ih hxs]

theorem mapGet_jsSort (k : Option Int) (l : List SortedItem)
    (hl : ∀ y ∈ l, y.date.isSome) : mapGet k (jsSort l) = mapGet k l := by
  rw [mapGet_eq_getLast_filter, mapGet_eq_getLast_filter, filter_jsSort k l hl]

/-- C2, amended: when several raw observations fall on the same calendar
day, the resulting day sample carries the price values of the observation
that occurs last in the input array — capture time within the day is
discarded by the midnight floor before sorting, and the stable sort plus
last-write-wins Map insertion leave array order decisive. -/
theorem c2_amended_last_in_array_wins (now : JSDate) (pre post : List RawRecord)
    (r : RawRecord) (d ms : Int) (kf : Nat)
    (hvalid : ∀ h ∈ pre ++ r :: post, ∃ dt k2, h.timestamp = RawTimestamp.valid dt k2)
    (hr : r.timestamp = RawTimestamp.valid ⟨d, ms⟩ kf)
    (hpost : ∀ h2 ∈ post, ∀ dt k2, h2.timestamp = RawTimestamp.valid dt k2 → dt.day ≠ d) :
    mapGet (some (d * oneDay)) (jsSort ((pre ++ r :: post).map (mkItem now)))
      = some ⟨some ⟨d, 0⟩, r.price_actual, r.clubcard_price⟩ := by
  have hone : (0 : Int) < oneDay := by norm_num [oneDay]
  have hval_items : ∀ it ∈ (pre ++ r :: post).map (mkItem now), it.date.isSome := by
    intro it hit
    rcases List.mem_map.mp hit with ⟨h0, hh0, rfl⟩
    rcases hvalid h0 hh0 with ⟨dt, k2, htk⟩
    simp [mkItem, parseDate, htk]
  rw [mapGet_jsSort _ _ hval_items, mapGet_eq_getLast_filter, List.map_append, List.map_cons,
    List.filter_append]
  have hfr : keyEq (itemTime (mkItem now r)) (some (d * oneDay)) = true := by
    simp [mkItem, parseDate, hr, itemTime, keyEq, JSDate.getTime]
  have hfpost : (post.map (mkItem now)).filter
      (fun it => keyEq (itemTime it) (some (d * oneDay))) = [] := by
    rw [List.filter_eq_nil_iff]
    intro it hit
    rcases List.mem_map.mp hit with ⟨h2, hh2, rfl⟩
    rcases hvalid h2 (List.mem_append.mpr (Or.inr (List.mem_cons.mpr (Or.inr hh2))))
      with ⟨dt, k2, htk⟩
    have hday : dt.day ≠ d := hpost h2 hh2 dt k2 htk
    simp only [mkItem, parseDate, htk, itemTime, Option.map_some', keyEq,
      JSDate.getTime, decide_eq_true_eq]
    intro heq
    apply hday
    apply mul_right_cancel₀ (ne_of_gt hone)
    omega
  rw [List.filter_cons, if_pos hfr, hfpost, List.getLast?_append_cons]
  simp [mkItem, parseDate, hr]

theorem c2_amended_last_in_array_wins_witness :
    (∀ h ∈ (([⟨.valid ⟨0, 100⟩ 0, some 100, none⟩] : List RawRecord) ++
        (⟨.valid ⟨0, 50⟩ 0, some 200, none⟩ : RawRecord) :: []),
      ∃ dt k2, h.timestamp = RawTimestamp.valid dt k2) ∧
    (⟨.valid ⟨0, 50⟩ 0, some 200, none⟩ : RawRecord).timestamp
      = RawTimestamp.valid ⟨0, 50⟩ 0 ∧
    (∀ h2 ∈ ([] : List RawRecord), ∀ dt k2,
      h2.timestamp = RawTimestamp.valid dt k2 → dt.day ≠ 0) ∧
    mapGet (some (0 * oneDay))
      (jsSort ((([⟨.valid ⟨0, 100⟩ 0, some 100, none⟩] : List RawRecord) ++
        (⟨.valid ⟨0, 50⟩ 0, some 200, none⟩ : RawRecord) :: []).map (mkItem ⟨0, 0⟩)))
      = some ⟨some ⟨0, 0⟩, some 200, none⟩ := by
  have h1 : ∀ h ∈ (([⟨.valid ⟨0, 100⟩ 0, some 100, none⟩] : List RawRecord) ++
      (⟨.valid ⟨0, 50⟩ 0, some 200, none⟩ : RawRecord) :: []),
      ∃ dt k2, h.timestamp = RawTimestamp.valid dt k2 := by
    intro h hh
    rcases List.mem_append.mp hh with hh1 | hh1
    · rcases List.mem_singleton.mp hh1 with rfl
      exact ⟨(⟨0, 100⟩ : JSDate), 0, rfl⟩
    · rcases List.mem_singleton.mp hh1 with rfl
      exact ⟨(⟨0, 50⟩ : JSDate), 0, rfl⟩
  have h3 : ∀ h2 ∈ ([] : List RawRecord), ∀ dt k2,
      h2.timestamp = RawTimestamp.valid dt k2 → dt.day ≠ 0 := by
    intro h2 hh2
    cases hh2
  exact ⟨h1, rfl, h3,
    c2_amended_last_in_array_wins ⟨0, 0⟩ [⟨.valid ⟨0, 100⟩ 0, some 100, none⟩] []
      ⟨.valid ⟨0, 50⟩ 0, some 200, none⟩ 0 50 0 h1 rfl h3⟩

/-- C2 counterexample: two same-day observations, the first in the array
captured at a later instant (ms 100) than the second (ms 50); the claim
demands the later capture to win (price 100), but the series carries the
price of the observation that appears last in the array (price 200). -/
theorem c2_counterexample :
    (processRealData ⟨0, 0⟩ [⟨.valid ⟨0, 100⟩ 0, some 100, none⟩,
        ⟨.valid ⟨0, 50⟩ 0, some 200, none⟩]).prices = [some 200] ∧
    (50 : Int) < 100 ∧ some (200 : ℚ) ≠ some (100 : ℚ) := by
  refine ⟨?_, by norm_num, by norm_num⟩
  norm_num [processRealData, jsSort, sortInsert, mkItem, parseDate, itemTime, jsLe, alignFrom,
    priceAt, clubAt, mapGet, keyEq, jsRound, ratFloor_eq, oneDay, jsOrNull, JSDate.getTime,
    List.range_succ, Int.toNat_ofNat]

theorem c1_temporal_alignment_witness :
    ([⟨.valid ⟨0, 0⟩ 0, some 100, none⟩] : List RawRecord) ≠ [] ∧
    (∀ h ∈ ([⟨.valid ⟨0, 0⟩ 0, some 100, none⟩] : List RawRecord),
      ∃ dt k, h.timestamp = RawTimestamp.valid dt k) ∧
    (∀ d ∈ obsDays [⟨.valid ⟨0, 0⟩ 0, some 100, none⟩], d ≤ (2 : Int)) ∧
    ∃ f : Int, AlignedSpec ⟨2, 0⟩ [⟨.valid ⟨0, 0⟩ 0, some 100, none⟩] f := by
  have h1 : ([⟨.valid ⟨0, 0⟩ 0, some 100, none⟩] : List RawRecord) ≠ [] := by
    simp
  have h2 : ∀ h ∈ ([⟨.valid ⟨0, 0⟩ 0, some 100, none⟩] : List RawRecord),
      ∃ dt k, h.timestamp = RawTimestamp.valid dt k := by
    intro h hh
    rcases List.mem_singleton.mp hh with rfl
    exact ⟨(⟨0, 0⟩ : JSDate), 0, rfl⟩
  have h3 : ∀ d ∈ obsDays [⟨.valid ⟨0, 0⟩ 0, some 100, none⟩], d ≤ (2 : Int) := by
    intro d hd
    simp [obsDays] at hd
    omega
  exact ⟨h1, h2, h3, c1_temporal_alignment ⟨2, 0⟩ _ h1 h2 h3⟩

theorem totalDays_nonneg (endDay : Int) (start : JSDate) :
    0 ≤ jsRound (((|endDay * oneDay - start.getTime| : Int) : ℚ) / ((oneDay : Int) : ℚ)) := by
  rw [jsRound, ratFloor_eq, Int.le_floor]
  have h1 : (0 : ℚ) ≤ ((|endDay * oneDay - start.getTime| : Int) : ℚ) / ((oneDay : Int) : ℚ) := by
    apply div_nonneg
    · exact_mod_cast abs_nonneg _
    · norm_num [oneDay]
  push_cast at h1 ⊢
  linarith

/-- C5, corrected: a price list with no usable value yields the sentinel
statistics and both functions are total, so no error condition exists; the
Aligner returns the empty chart for the empty batch, while any non-empty
batch of parsable observations yields a non-empty series even when every
actual price is null — an empty filtered price set does not empty the
series. -/
theorem c5_amended_nodata (now now2 : JSDate) (prices : List (Option ℚ))
    (history : List RawRecord)
    (hfp : prices.filterMap id = [])
    (hne : history ≠ [])
    (hvalid : ∀ h ∈ history, ∃ dt k, h.timestamp = RawTimestamp.valid dt k) :
    calculateStats prices = noDataStats ∧
    processRealData now [] = emptyChart ∧
    (processRealData now2 history).labels ≠ [] := by
  refine ⟨?_, rfl, ?_⟩
  · unfold calculateStats
    rw [hfp]
    rfl
  · set items := history.map (mkItem now2) with hitems_def
    have hval : ∀ it ∈ items, it.date.isSome := by
      intro it hit
      rcases List.mem_map.mp hit with ⟨h0, hh0, rfl⟩
      rcases hvalid h0 hh0 with ⟨dt, k, htk⟩
      simp [mkItem, parseDate, htk]
    have hlen : items ≠ [] := by
      intro h
      exact hne (List.map_eq_nil_iff.mp (hitems_def ▸ h))
    obtain ⟨first, rest, hs⟩ : ∃ first rest, jsSort items = first :: rest := by
      cases hjs : jsSort items with
      | nil =>
        exfalso
        have hln := (jsSort_perm items).length_eq
        rw [hjs] at hln
        simp at hln
        exact hlen (List.length_eq_zero.mp hln.symm)
      | cons a b => exact ⟨a, b, rfl⟩
    have hsp : (first :: rest).Perm items := hs ▸ jsSort_perm items
    have hfmem : first ∈ items := hsp.mem_iff.mp (List.mem_cons_self first rest)
    obtain ⟨fd, hfdate⟩ := Option.isSome_iff_exists.mp (hval first hfmem)
    have hpr : processRealData now2 history = alignFrom (first :: rest) now2.day fd := by
      unfold processRealData
      rw [← hitems_def, hs]
      simp only [hfdate]
    rw [hpr]
    simp only [alignFrom]
    intro hnil
    have hrange := List.map_eq_nil_iff.mp hnil
    have hzero := List.range_eq_nil.mp hrange
    have hnn := totalDays_nonneg now2.day fd
    omega

theorem c5_amended_nodata_witness :
    List.filterMap id ([none] : List (Option ℚ)) = [] ∧
    ([⟨.valid ⟨0, 0⟩ 0, none, some 50⟩] : List RawRecord) ≠ [] ∧
    (∀ h ∈ ([⟨.valid ⟨0, 0⟩ 0, none, some 50⟩] : List RawRecord),
      ∃ dt k, h.timestamp = RawTimestamp.valid dt k) ∧
    (calculateStats [none] = noDataStats ∧
      processRealData ⟨0, 0⟩ [] = emptyChart ∧
      (processRealData ⟨0, 0⟩ [⟨.valid ⟨0, 0⟩ 0, none, some 50⟩]).labels ≠ []) := by
  have h1 : List.filterMap id ([none] : List (Option ℚ)) = [] := by simp
  have h2 : ([⟨.valid ⟨0, 0⟩ 0, none, some 50⟩] : List RawRecord) ≠ [] := by simp
  have h3 : ∀ h ∈ ([⟨.valid ⟨0, 0⟩ 0, none, some 50⟩] : List RawRecord),
      ∃ dt k, h.timestamp = RawTimestamp.valid dt k := by
    intro h hh
    rcases List.mem_singleton.mp hh with rfl
    exact ⟨(⟨0, 0⟩ : JSDate), 0, rfl⟩
  exact ⟨h1, h2, h3, c5_amended_nodata ⟨0, 0⟩ ⟨0, 0⟩ [none] _ h1 h2 h3⟩

end TescoPriceTracker
